import Mathlib

/-!
Verification of the analysis-portability and plugin-resolution layer of
`src/python/twitter/pants/tasks/scala/zinc_utils.py` (class `ZincUtils`).

The filesystem is modelled as a partial map from path strings to file
contents.  A file's content is modelled as a list of segments (path tokens
and opaque text), since the zinc rebase protocol treats analysis files as
opaque text with embedded path tokens.  The external zinc process is not part
of the repository; its rebase mode and its exit status are modelled
explicitly (see `run_zinc_rebase_fs` and the `exit_code` parameters).
-/

/-- A file's content: a sequence of embedded path tokens / opaque text segments. -/
abbrev Content := List String

/-- Filesystem model: a path either holds a file's content or does not exist. -/
def FS : Type := String → Option Content

/-- Writing (or erasing, with `none`) one path of the filesystem. -/
def updateFS (fs : FS) (p : String) (v : Option Content) : FS :=
  fun q => if q = p then v else fs q

/-- Model of `shutil.copy`: the destination receives the source's content. -/
def copyFile (src dst : String) (fs : FS) : FS :=
  updateFS fs dst (fs src)

/-- Model of `shutil.move`: destination receives the content, source is removed. -/
def moveFile (src dst : String) (fs : FS) : FS :=
  updateFS (updateFS fs dst (fs src)) src none

/-- `ZincUtils.copy_or_move_analysis(func, src, dst)`: if `src` exists apply
`func(src, dst)`, then, if `src + '.relations'` exists (checked after the
first transfer, as in the source), apply `func` to the relations sibling. -/
def copy_or_move_analysis (func : String → String → FS → FS) (src dst : String) (fs : FS) : FS :=
  if (fs src).isSome then
    let fs1 := func src dst fs
    if (fs1 (src ++ ".relations")).isSome then
      func (src ++ ".relations") (dst ++ ".relations") fs1
    else fs1
  else fs

/-- `ZincUtils._copy_analysis(src, dst)`. -/
def copy_analysis (src dst : String) (fs : FS) : FS :=
  copy_or_move_analysis copyFile src dst fs

/-- `ZincUtils._move_analysis(src, dst)`. -/
def move_analysis (src dst : String) (fs : FS) : FS :=
  copy_or_move_analysis moveFile src dst fs

/-- Modelled from the spec: one zinc rebasing `(rebase_from, rebase_to)` applied
to one embedded path token — the backend itself is external to this repository.
Rebasing is "textual substitution of an absolute path prefix with another
string": a token starting with `fr` has that prefix replaced by `to`. -/
def rebaseTok (fr tgt tok : String) : String :=
  if fr.data <+: tok.data then tgt ++ String.mk (tok.data.drop fr.data.length) else tok

/-- All rebasings of a list applied (in list order) to one token. -/
def rebaseTokAll (rebasings : List (String × String)) (tok : String) : String :=
  rebasings.foldl (fun t p => rebaseTok p.1 p.2 t) tok

/-- A rebasing list applied to a whole file content. -/
def rebaseContent (rebasings : List (String × String)) (c : Content) : Content :=
  c.map (rebaseTokAll rebasings)

/-- Modelled from the spec: the effect of `ZincUtils.run_zinc_rebase` on the
filesystem when the external zinc process succeeds — the analysis file at
`path` and its `.relations` sibling (both text with embedded path tokens)
are rewritten by the rebasing list. -/
def run_zinc_rebase_fs (rebasings : List (String × String)) (path : String) (fs : FS) : FS :=
  let fs1 := match fs path with
    | some c => updateFS fs path (some (rebaseContent rebasings c))
    | none => fs
  match fs1 (path ++ ".relations") with
  | some c => updateFS fs1 (path ++ ".relations") (some (rebaseContent rebasings c))
  | none => fs1

/-- The three environment-dependent roots held by a `ZincUtils` instance:
`self._java_home`, `self._ivy_home`, `self._pants_home`. -/
structure ZincUtils where
  java_home : String
  ivy_home : String
  pants_home : String

/-- `ZincUtils.IVY_HOME_PLACEHOLDER`. -/
def IVY_HOME_PLACEHOLDER : String := "/IVY_HOME_PLACEHOLDER"

/-- `ZincUtils.PANTS_HOME_PLACEHOLDER`. -/
def PANTS_HOME_PLACEHOLDER : String := "/PANTS_HOME_PLACEHOLDER"

/-- The rebasing list built inside `relativize_analysis_file`:
java home erased, ivy home and pants home mapped to their placeholders. -/
def relativize_rebasings (zu : ZincUtils) : List (String × String) :=
  [(zu.java_home, ""),
   (zu.ivy_home, IVY_HOME_PLACEHOLDER),
   (zu.pants_home, PANTS_HOME_PLACEHOLDER)]

/-- The rebasing list built inside `localize_analysis_file`:
the two placeholders mapped back to the ivy home and the pants home. -/
def localize_rebasings (zu : ZincUtils) : List (String × String) :=
  [(IVY_HOME_PLACEHOLDER, zu.ivy_home),
   (PANTS_HOME_PLACEHOLDER, zu.pants_home)]

/-- Common body of `relativize_analysis_file` and `localize_analysis_file`
(the two source functions are identical except for their rebasing lists):
copy `src` into a fresh temporary dir, run the zinc rebase there (the external
process yields `exit_code`; on success it rewrites the temporary copy), copy
the temporary result to `dst` only when the exit code is zero
(`if not exit_code:`), remove the temporary dir on every exit path, and
return the exit code. -/
def rebase_analysis_file (rebasings : List (String × String)) (exit_code : Int)
    (tmp_analysis_dir src dst : String) (fs : FS) : Int × FS :=
  let tmp_analysis_file := tmp_analysis_dir ++ "/analysis"
  let fs1 := copy_analysis src tmp_analysis_file fs
  let fs2 := if exit_code = 0 then run_zinc_rebase_fs rebasings tmp_analysis_file fs1 else fs1
  let fs3 := if exit_code = 0 then copy_analysis tmp_analysis_file dst fs2 else fs2
  (exit_code, updateFS (updateFS fs3 (tmp_analysis_file ++ ".relations") none) tmp_analysis_file none)

/-- `ZincUtils.relativize_analysis_file(src, dst)`. -/
def relativize_analysis_file (zu : ZincUtils) (exit_code : Int)
    (tmp_analysis_dir src dst : String) (fs : FS) : Int × FS :=
  rebase_analysis_file (relativize_rebasings zu) exit_code tmp_analysis_dir src dst fs

/-- `ZincUtils.localize_analysis_file(src, dst)`. -/
def localize_analysis_file (zu : ZincUtils) (exit_code : Int)
    (tmp_analysis_dir src dst : String) (fs : FS) : Int × FS :=
  rebase_analysis_file (localize_rebasings zu) exit_code tmp_analysis_dir src dst fs

/-- The flat character text of a file content (its segments concatenated). -/
def strText (c : Content) : List Char :=
  (c.map String.data).flatten

/-- The literal marker `'products:\n\n'` that begins an empty relation-index. -/
def emptyMarker : List Char := "products:\n\n".data

/-- `ZincUtils.is_nonempty_analysis(path)`: false when `path + '.relations'`
does not exist; otherwise read the first `len('products:\n\n')` characters and
compare them with that marker. -/
def is_nonempty_analysis (fs : FS) (path : String) : Bool :=
  match fs (path ++ ".relations") with
  | none => false
  | some c => decide ((strText c).take emptyMarker.length ≠ emptyMarker)

/-- The parsed `scalac-plugin.xml` descriptor of a candidate archive:
the root tag and the text of its `name` child. -/
structure PluginDescriptor where
  tag : String
  name : String
deriving DecidableEq

/-- A candidate archive: its path, and its `scalac-plugin.xml` entry when the
archive has one (`none` models the `KeyError` path: not a plugin, skipped). -/
structure PluginJar where
  path : String
  descriptor : Option PluginDescriptor
deriving DecidableEq

/-- The `TaskError`s that `find_plugins` can raise. -/
inductive PluginError where
  | invalidDescriptor (jar : String)
  | duplicatePlugin (name firstLocation secondJar : String)
  | missingPlugins (names : List String)
deriving DecidableEq

/-- The scan loop of `ZincUtils.find_plugins`: walk the candidate archives in
order, skip archives without a descriptor entry, fail on a root tag other than
`plugin`, and for a requested name either record `(name, relpath(jar))` or fail
with a conflict naming the already-recorded location and the current archive. -/
def find_plugins_scan (relpath : String → String) (plugin_names : List String) :
    List PluginJar → List (String × String) → Except PluginError (List (String × String))
  | [], plugins => .ok plugins
  | jar :: rest, plugins =>
    match jar.descriptor with
    | none => find_plugins_scan relpath plugin_names rest plugins
    | some info =>
      if info.tag ≠ "plugin" then
        .error (.invalidDescriptor jar.path)
      else if info.name ∈ plugin_names then
        match plugins.lookup info.name with
        | some firstLocation => .error (.duplicatePlugin info.name firstLocation jar.path)
        | none => find_plugins_scan relpath plugin_names rest (plugins ++ [(info.name, relpath jar.path)])
      else
        find_plugins_scan relpath plugin_names rest plugins

/-- `ZincUtils.find_plugins(plugin_names)`: scan every candidate archive, then
report all still-unresolved requested names together in one error.  `relpath`
abstracts `os.path.relpath(jar, self._pants_home)`; `plugin_jars` is
`self._plugin_jars` with each archive's descriptor entry already read. -/
def find_plugins (relpath : String → String) (plugin_jars : List PluginJar)
    (plugin_names : List String) : Except PluginError (List (String × String)) :=
  let requested := plugin_names.dedup
  match find_plugins_scan relpath requested plugin_jars [] with
  | .error e => .error e
  | .ok plugins =>
    let unresolved_plugins := requested.filter (fun n => (plugins.lookup n).isNone)
    if unresolved_plugins.length > 0 then .error (.missingPlugins unresolved_plugins)
    else .ok plugins

deriving instance DecidableEq for Except

/-! ## Basic filesystem lemmas -/

theorem updateFS_self (fs : FS) (p : String) (v : Option Content) : updateFS fs p v p = v := by
  simp [updateFS]

theorem updateFS_other (fs : FS) (p : String) (v : Option Content) (q : String) (h : q ≠ p) :
    updateFS fs p v q = fs q := by
  simp [updateFS, h]

theorem strData_append (a b : String) : (a ++ b).data = a.data ++ b.data := by
  cases a; cases b; rfl

theorem strData_mk_append (tgt : String) (r : List Char) : (tgt ++ String.mk r).data = tgt.data ++ r := by
  cases tgt; rfl

theorem relations_ne (p : String) : p ++ ".relations" ≠ p := by
  intro h
  have h2 := congrArg (fun s => s.data.length) h
  simp only [strData_append] at h2
  simp at h2

/-! ## Effect of `copy_analysis` on individual paths -/

theorem copy_analysis_frame (src dst : String) (fs : FS) (q : String)
    (h1 : q ≠ dst) (h2 : q ≠ dst ++ ".relations") :
    copy_analysis src dst fs q = fs q := by
  simp only [copy_analysis, copy_or_move_analysis, copyFile]
  split
  · split <;> simp [updateFS, h1, h2]
  · rfl

theorem copy_analysis_dst (src dst : String) (fs : FS) (c : Content) (h : fs src = some c) :
    copy_analysis src dst fs dst = some c := by
  simp only [copy_analysis, copy_or_move_analysis, copyFile, h, Option.isSome_some, if_true]
  split <;> simp [updateFS, (relations_ne dst).symm]

theorem copy_analysis_relations_some (src dst : String) (fs : FS) (c r : Content)
    (h : fs src = some c) (hr : fs (src ++ ".relations") = some r)
    (hne : src ++ ".relations" ≠ dst) :
    copy_analysis src dst fs (dst ++ ".relations") = some r := by
  simp [copy_analysis, copy_or_move_analysis, copyFile, updateFS, h, hr, hne]

theorem copy_analysis_relations_none (src dst : String) (fs : FS) (c : Content)
    (h : fs src = some c) (hr : fs (src ++ ".relations") = none)
    (hne : src ++ ".relations" ≠ dst) :
    copy_analysis src dst fs (dst ++ ".relations") = fs (dst ++ ".relations") := by
  simp [copy_analysis, copy_or_move_analysis, copyFile, updateFS, h, hr, hne, relations_ne dst]

/-! ## Effect of the modelled zinc rebase on individual paths -/

theorem rebase_fs_at (R : List (String × String)) (path : String) (fs : FS) (c : Content)
    (h : fs path = some c) :
    run_zinc_rebase_fs R path fs path = some (rebaseContent R c) := by
  simp only [run_zinc_rebase_fs, h]
  split <;> simp [updateFS, (relations_ne path).symm]

theorem rebase_fs_rel (R : List (String × String)) (path : String) (fs : FS) :
    run_zinc_rebase_fs R path fs (path ++ ".relations") =
      (fs (path ++ ".relations")).map (rebaseContent R) := by
  unfold run_zinc_rebase_fs
  cases hp : fs path with
  | some c =>
    have hrel : (updateFS fs path (some (rebaseContent R c))) (path ++ ".relations")
        = fs (path ++ ".relations") := updateFS_other _ _ _ _ (relations_ne path)
    cases hq : fs (path ++ ".relations") with
    | some r => simp [hp, hrel, hq, updateFS_self]
    | none => simp [hp, hrel, hq]
  | none =>
    cases hq : fs (path ++ ".relations") with
    | some r => simp [hp, hq, updateFS_self]
    | none => simp [hp, hq]

theorem rebase_fs_frame (R : List (String × String)) (path : String) (fs : FS) (q : String)
    (h1 : q ≠ path) (h2 : q ≠ path ++ ".relations") :
    run_zinc_rebase_fs R path fs q = fs q := by
  simp only [run_zinc_rebase_fs]
  split
  · next c heq => split <;> simp_all [updateFS, h1, h2]
  · next heq => split <;> simp_all [updateFS, h1, h2]

/-! ## Effect of `rebase_analysis_file` on individual paths -/

theorem rebase_analysis_file_exit (R : List (String × String)) (ec : Int)
    (t src dst : String) (fs : FS) :
    (rebase_analysis_file R ec t src dst fs).1 = ec := rfl

theorem rebase_analysis_file_frame (R : List (String × String)) (ec : Int)
    (t src dst : String) (fs : FS) (q : String)
    (h1 : q ≠ t ++ "/analysis") (h2 : q ≠ (t ++ "/analysis") ++ ".relations")
    (h3 : q ≠ dst) (h4 : q ≠ dst ++ ".relations") :
    (rebase_analysis_file R ec t src dst fs).2 q = fs q := by
  simp only [rebase_analysis_file]
  rw [updateFS_other _ _ _ _ h1, updateFS_other _ _ _ _ h2]
  by_cases hec : ec = 0
  · rw [if_pos hec, if_pos hec, copy_analysis_frame _ _ _ _ h3 h4,
      rebase_fs_frame _ _ _ _ h1 h2, copy_analysis_frame _ _ _ _ h1 h2]
  · rw [if_neg hec, if_neg hec, copy_analysis_frame _ _ _ _ h1 h2]

theorem rebase_analysis_file_fail_frame (R : List (String × String)) (ec : Int)
    (t src dst : String) (fs : FS) (q : String) (hec : ec ≠ 0)
    (h1 : q ≠ t ++ "/analysis") (h2 : q ≠ (t ++ "/analysis") ++ ".relations") :
    (rebase_analysis_file R ec t src dst fs).2 q = fs q := by
  simp only [rebase_analysis_file]
  rw [updateFS_other _ _ _ _ h1, updateFS_other _ _ _ _ h2,
    if_neg hec, if_neg hec, copy_analysis_frame _ _ _ _ h1 h2]

theorem rebase_analysis_file_success_dst (R : List (String × String))
    (t src dst : String) (fs : FS) (c : Content)
    (h : fs src = some c)
    (h3 : dst ≠ t ++ "/analysis") (h4 : dst ≠ (t ++ "/analysis") ++ ".relations") :
    (rebase_analysis_file R 0 t src dst fs).2 dst = some (rebaseContent R c) := by
  simp only [rebase_analysis_file]
  rw [updateFS_other _ _ _ _ h3, updateFS_other _ _ _ _ h4]
  simp only [if_true]
  rw [copy_analysis_dst _ _ _ (rebaseContent R c)
    (rebase_fs_at R _ _ c (copy_analysis_dst src _ fs c h))]

theorem rebase_analysis_file_success_relations_none (R : List (String × String))
    (t src dst : String) (fs : FS) (c : Content)
    (h : fs src = some c) (hr : fs (src ++ ".relations") = none)
    (htr : fs ((t ++ "/analysis") ++ ".relations") = none)
    (hsr : src ++ ".relations" ≠ t ++ "/analysis")
    (h3 : dst ≠ t ++ "/analysis") (h4 : dst ≠ (t ++ "/analysis") ++ ".relations")
    (h5 : dst ++ ".relations" ≠ t ++ "/analysis")
    (h6 : dst ++ ".relations" ≠ (t ++ "/analysis") ++ ".relations") :
    (rebase_analysis_file R 0 t src dst fs).2 (dst ++ ".relations") = fs (dst ++ ".relations") := by
  simp only [rebase_analysis_file]
  rw [updateFS_other _ _ _ _ h5, updateFS_other _ _ _ _ h6]
  simp only [if_true]
  have h1 : copy_analysis src (t ++ "/analysis") fs (t ++ "/analysis") = some c :=
    copy_analysis_dst src _ fs c h
  have h2 : copy_analysis src (t ++ "/analysis") fs ((t ++ "/analysis") ++ ".relations") = none := by
    rw [copy_analysis_relations_none src _ fs c h hr hsr, htr]
  have h2' : run_zinc_rebase_fs R (t ++ "/analysis") (copy_analysis src (t ++ "/analysis") fs)
      ((t ++ "/analysis") ++ ".relations") = none := by
    rw [rebase_fs_rel, h2]; rfl
  rw [copy_analysis_relations_none _ _ _ (rebaseContent R c)
      (rebase_fs_at R _ _ c h1) h2' h4.symm]
  rw [rebase_fs_frame _ _ _ _ h5 h6, copy_analysis_frame _ _ _ _ h5 h6]

/-! ## Prefix reasoning for rebasing tokens -/

theorem prefix_shorten {a b c : List Char} (h : a <+: b ++ c) (hlen : a.length ≤ b.length) :
    a <+: b := by
  rw [List.prefix_iff_eq_take] at h
  rw [List.take_append_of_le_length hlen] at h
  rw [h]
  exact List.take_prefix _ _

theorem not_prefix_append {a b c : List Char} (hab : ¬ a <+: b) (hba : ¬ b <+: a) :
    ¬ a <+: b ++ c := by
  intro h
  rcases le_or_lt a.length b.length with hl | hl
  · exact hab (prefix_shorten h hl)
  · apply hba
    rw [List.prefix_iff_eq_take] at h
    have hb : b = a.take b.length := by
      conv_lhs => rw [← List.take_left b c]
      rw [h, List.take_take, Nat.min_eq_left (Nat.le_of_lt hl)]
    rw [hb]
    exact List.take_prefix _ _

theorem rebaseTok_rebased (fr tgt tok : String) (r : List Char) (h : tok.data = fr.data ++ r) :
    rebaseTok fr tgt tok = tgt ++ String.mk r := by
  unfold rebaseTok
  rw [if_pos (by rw [h]; exact List.prefix_append _ _)]
  rw [h, List.drop_left]

theorem rebaseTok_untouched (fr tgt tok : String) (h : ¬ fr.data <+: tok.data) :
    rebaseTok fr tgt tok = tok := if_neg h

/-- Round trip of a single token: relativizing and then localizing restores a
token that carries no JVM-root reference and no placeholder occurrence,
provided the build root and the ivy placeholder are prefix-disjoint. -/
theorem roundtrip_tok (zu : ZincUtils) (tok : String)
    (hpI : ¬ zu.pants_home.data <+: IVY_HOME_PLACEHOLDER.data)
    (hIp : ¬ IVY_HOME_PLACEHOLDER.data <+: zu.pants_home.data)
    (hj : ¬ zu.java_home.data <+: tok.data)
    (hI : ¬ IVY_HOME_PLACEHOLDER.data <+: tok.data)
    (hP : ¬ PANTS_HOME_PLACEHOLDER.data <+: tok.data) :
    rebaseTokAll (localize_rebasings zu) (rebaseTokAll (relativize_rebasings zu) tok) = tok := by
  simp only [rebaseTokAll, relativize_rebasings, localize_rebasings, List.foldl]
  rw [rebaseTok_untouched zu.java_home "" tok hj]
  by_cases hiv : zu.ivy_home.data <+: tok.data
  · obtain ⟨r, hr⟩ := hiv
    have hdata : (IVY_HOME_PLACEHOLDER ++ String.mk r).data = IVY_HOME_PLACEHOLDER.data ++ r :=
      strData_mk_append _ r
    have e2 : rebaseTok zu.ivy_home IVY_HOME_PLACEHOLDER tok = IVY_HOME_PLACEHOLDER ++ String.mk r :=
      rebaseTok_rebased _ _ _ r hr.symm
    have e3 : rebaseTok zu.pants_home PANTS_HOME_PLACEHOLDER (IVY_HOME_PLACEHOLDER ++ String.mk r) =
        IVY_HOME_PLACEHOLDER ++ String.mk r :=
      rebaseTok_untouched _ _ _ (by rw [hdata]; exact not_prefix_append hpI hIp)
    have e4 : rebaseTok IVY_HOME_PLACEHOLDER zu.ivy_home (IVY_HOME_PLACEHOLDER ++ String.mk r) =
        zu.ivy_home ++ String.mk r :=
      rebaseTok_rebased _ _ _ r hdata
    have e5 : zu.ivy_home ++ String.mk r = tok := String.ext (by rw [strData_mk_append, hr])
    have e6 : rebaseTok PANTS_HOME_PLACEHOLDER zu.pants_home tok = tok :=
      rebaseTok_untouched _ _ _ hP
    rw [e2, e3, e4, e5, e6]
  · rw [rebaseTok_untouched zu.ivy_home IVY_HOME_PLACEHOLDER tok hiv]
    by_cases hpa : zu.pants_home.data <+: tok.data
    · obtain ⟨r, hr⟩ := hpa
      have hdata : (PANTS_HOME_PLACEHOLDER ++ String.mk r).data = PANTS_HOME_PLACEHOLDER.data ++ r :=
        strData_mk_append _ r
      have hIPn : ¬ IVY_HOME_PLACEHOLDER.data <+: PANTS_HOME_PLACEHOLDER.data := by decide
      have hPIn : ¬ PANTS_HOME_PLACEHOLDER.data <+: IVY_HOME_PLACEHOLDER.data := by decide
      have e3 : rebaseTok zu.pants_home PANTS_HOME_PLACEHOLDER tok = PANTS_HOME_PLACEHOLDER ++ String.mk r :=
        rebaseTok_rebased _ _ _ r hr.symm
      have e4 : rebaseTok IVY_HOME_PLACEHOLDER zu.ivy_home (PANTS_HOME_PLACEHOLDER ++ String.mk r) =
          PANTS_HOME_PLACEHOLDER ++ String.mk r :=
        rebaseTok_untouched _ _ _ (by rw [hdata]; exact not_prefix_append hIPn hPIn)
      have e5 : rebaseTok PANTS_HOME_PLACEHOLDER zu.pants_home (PANTS_HOME_PLACEHOLDER ++ String.mk r) =
          zu.pants_home ++ String.mk r :=
        rebaseTok_rebased _ _ _ r hdata
      have e6 : zu.pants_home ++ String.mk r = tok := String.ext (by rw [strData_mk_append, hr])
      rw [e3, e4, e5, e6]
    · rw [rebaseTok_untouched zu.pants_home PANTS_HOME_PLACEHOLDER tok hpa,
        rebaseTok_untouched IVY_HOME_PLACEHOLDER zu.ivy_home tok hI,
        rebaseTok_untouched PANTS_HOME_PLACEHOLDER zu.pants_home tok hP]

/-- Round trip of a whole content under the per-token conditions. -/
theorem roundtrip_content (zu : ZincUtils) (c : Content)
    (hpI : ¬ zu.pants_home.data <+: IVY_HOME_PLACEHOLDER.data)
    (hIp : ¬ IVY_HOME_PLACEHOLDER.data <+: zu.pants_home.data)
    (hc : ∀ tok ∈ c, ¬ zu.java_home.data <+: tok.data ∧
      ¬ IVY_HOME_PLACEHOLDER.data <+: tok.data ∧ ¬ PANTS_HOME_PLACEHOLDER.data <+: tok.data) :
    rebaseContent (localize_rebasings zu) (rebaseContent (relativize_rebasings zu) c) = c := by
  unfold rebaseContent
  rw [List.map_map]
  induction c with
  | nil => rfl
  | cons tok rest ih =>
    rw [List.map_cons]
    obtain ⟨h1, h2, h3⟩ := hc tok (List.mem_cons_self tok rest)
    rw [Function.comp_apply, roundtrip_tok zu tok hpI hIp h1 h2 h3]
    rw [ih (fun t ht => hc t (List.mem_cons_of_mem tok ht))]

/-! ## Shared concrete fixtures for witnesses and counterexamples -/

/-- A concrete `ZincUtils` environment. -/
def zuW : ZincUtils := ⟨"/jvm", "/ivy", "/pants"⟩

/-- A concrete filesystem holding one analysis file at `/a`. -/
def fsW : FS := fun p => if p = "/a" then some ["/ivy/x"] else none

/-! ## Claims -/

/-- C1 (amended): for an analysis file whose tokens carry no JVM-root reference
and also no occurrence of either placeholder token, and whose build root is
prefix-disjoint from the ivy placeholder, relativizing to `mid` and then
localizing to `dst` reproduces the original content byte-for-byte. -/
theorem relativize_localize_roundtrip (zu : ZincUtils) (fs : FS) (A : Content)
    (t1 t2 src mid dst : String)
    (hsrc : fs src = some A)
    (hjvm : ∀ tok ∈ A, ¬ zu.java_home.data <+: tok.data)
    (hph : ∀ tok ∈ A, ¬ IVY_HOME_PLACEHOLDER.data <+: tok.data ∧
      ¬ PANTS_HOME_PLACEHOLDER.data <+: tok.data)
    (hpI : ¬ zu.pants_home.data <+: IVY_HOME_PLACEHOLDER.data)
    (hIp : ¬ IVY_HOME_PLACEHOLDER.data <+: zu.pants_home.data)
    (hm1 : mid ≠ t1 ++ "/analysis") (hm2 : mid ≠ (t1 ++ "/analysis") ++ ".relations")
    (hd1 : dst ≠ t2 ++ "/analysis") (hd2 : dst ≠ (t2 ++ "/analysis") ++ ".relations") :
    (localize_analysis_file zu 0 t2 mid dst
      (relativize_analysis_file zu 0 t1 src mid fs).2).2 dst = some A := by
  have step1 : (relativize_analysis_file zu 0 t1 src mid fs).2 mid =
      some (rebaseContent (relativize_rebasings zu) A) :=
    rebase_analysis_file_success_dst _ _ _ _ _ _ hsrc hm1 hm2
  have step2 : (localize_analysis_file zu 0 t2 mid dst
      (relativize_analysis_file zu 0 t1 src mid fs).2).2 dst =
      some (rebaseContent (localize_rebasings zu)
        (rebaseContent (relativize_rebasings zu) A)) :=
    rebase_analysis_file_success_dst _ _ _ _ _ _ step1 hd1 hd2
  rw [step2, roundtrip_content zu A hpI hIp
    (fun tok ht => ⟨hjvm tok ht, (hph tok ht).1, (hph tok ht).2⟩)]

/-- C1, counterexample to the claim as stated: an analysis file whose content
contains a placeholder token — but no JVM-root reference, the claim's only
condition — is not reproduced by relativize-then-localize. -/
theorem relativize_localize_roundtrip_failure :
    (fun p => if p = "/a" then some ["/IVY_HOME_PLACEHOLDER/x"] else none : FS) "/a" =
      some ["/IVY_HOME_PLACEHOLDER/x"] ∧
    (∀ tok ∈ ["/IVY_HOME_PLACEHOLDER/x"], ¬ ("/jvm" : String).data <+: tok.data) ∧
    (localize_analysis_file ⟨"/jvm", "/ivy", "/pants"⟩ 0 "/t2" "/b" "/c"
      (relativize_analysis_file ⟨"/jvm", "/ivy", "/pants"⟩ 0 "/t1" "/a" "/b"
        (fun p => if p = "/a" then some ["/IVY_HOME_PLACEHOLDER/x"] else none)).2).2 "/c" ≠
      some ["/IVY_HOME_PLACEHOLDER/x"] := by
  refine ⟨rfl, by decide, by decide⟩

/-- C1, witness for the amended round trip at a concrete instance. -/
theorem relativize_localize_roundtrip_witness :
    (localize_analysis_file zuW 0 "/t2" "/b" "/c"
      (relativize_analysis_file zuW 0 "/t1" "/a" "/b"
        (fun p => if p = "/a" then some ["/ivy/x", "/pants/y", "other"] else none)).2).2 "/c" =
      some ["/ivy/x", "/pants/y", "other"] :=
  relativize_localize_roundtrip zuW _ ["/ivy/x", "/pants/y", "other"] "/t1" "/t2" "/a" "/b" "/c"
    (by decide) (by decide) (by decide) (by decide) (by decide) (by decide) (by decide)
    (by decide) (by decide)

/-- C2: when the backend rebase exits non-zero, both `relativize_analysis_file`
and `localize_analysis_file` leave the destination and its `.relations` sibling
exactly as they were (absent or at their prior content) and return the
non-zero exit status to the caller. -/
theorem rebase_failure_leaves_dst_unchanged (zu : ZincUtils) (ec : Int)
    (t src dst : String) (fs : FS) (hec : ec ≠ 0)
    (h1 : dst ≠ t ++ "/analysis") (h2 : dst ≠ (t ++ "/analysis") ++ ".relations")
    (h3 : dst ++ ".relations" ≠ t ++ "/analysis")
    (h4 : dst ++ ".relations" ≠ (t ++ "/analysis") ++ ".relations") :
    ((relativize_analysis_file zu ec t src dst fs).1 = ec ∧
      (relativize_analysis_file zu ec t src dst fs).2 dst = fs dst ∧
      (relativize_analysis_file zu ec t src dst fs).2 (dst ++ ".relations") =
        fs (dst ++ ".relations")) ∧
    ((localize_analysis_file zu ec t src dst fs).1 = ec ∧
      (localize_analysis_file zu ec t src dst fs).2 dst = fs dst ∧
      (localize_analysis_file zu ec t src dst fs).2 (dst ++ ".relations") =
        fs (dst ++ ".relations")) :=
  ⟨⟨rfl, rebase_analysis_file_fail_frame _ _ _ _ _ _ _ hec h1 h2,
    rebase_analysis_file_fail_frame _ _ _ _ _ _ _ hec h3 h4⟩,
   ⟨rfl, rebase_analysis_file_fail_frame _ _ _ _ _ _ _ hec h1 h2,
    rebase_analysis_file_fail_frame _ _ _ _ _ _ _ hec h3 h4⟩⟩

/-- C2, witness at a concrete failing exit status. -/
theorem rebase_failure_leaves_dst_unchanged_witness :
    ((relativize_analysis_file zuW 1 "/t" "/a" "/b" fsW).1 = 1 ∧
      (relativize_analysis_file zuW 1 "/t" "/a" "/b" fsW).2 "/b" = fsW "/b" ∧
      (relativize_analysis_file zuW 1 "/t" "/a" "/b" fsW).2 ("/b" ++ ".relations") =
        fsW ("/b" ++ ".relations")) ∧
    ((localize_analysis_file zuW 1 "/t" "/a" "/b" fsW).1 = 1 ∧
      (localize_analysis_file zuW 1 "/t" "/a" "/b" fsW).2 "/b" = fsW "/b" ∧
      (localize_analysis_file zuW 1 "/t" "/a" "/b" fsW).2 ("/b" ++ ".relations") =
        fsW ("/b" ++ ".relations")) :=
  rebase_failure_leaves_dst_unchanged zuW 1 "/t" "/a" "/b" fsW
    (by decide) (by decide) (by decide) (by decide) (by decide)

/-- C3: `is_nonempty_analysis` returns true exactly when the `.relations` file
exists and its text does not begin with the literal marker `'products:\n\n'`. -/
theorem is_nonempty_analysis_iff (fs : FS) (p : String) :
    is_nonempty_analysis fs p = true ↔
      ∃ c, fs (p ++ ".relations") = some c ∧ ¬ emptyMarker <+: strText c := by
  unfold is_nonempty_analysis
  cases h : fs (p ++ ".relations") with
  | none => simp [h]
  | some c =>
    simp only [decide_eq_true_eq]
    constructor
    · intro hne
      exact ⟨c, rfl, fun hp => hne (List.prefix_iff_eq_take.mp hp).symm⟩
    · rintro ⟨c', hc', hnp⟩
      rw [Option.some.injEq] at hc'
      subst hc'
      intro heq
      exact hnp (List.prefix_iff_eq_take.mpr heq.symm)

/-- C9: a `.relations` file that exists but whose text is shorter than the
11-character marker — including a zero-byte file — is classified non-empty. -/
theorem is_nonempty_analysis_short_relations (fs : FS) (p : String) (c : Content)
    (hex : fs (p ++ ".relations") = some c)
    (hshort : (strText c).length < emptyMarker.length) :
    is_nonempty_analysis fs p = true := by
  unfold is_nonempty_analysis
  rw [hex]
  simp only [decide_eq_true_eq]
  rw [List.take_of_length_le (Nat.le_of_lt hshort)]
  intro heq
  rw [heq] at hshort
  exact Nat.lt_irrefl _ hshort

/-- C9, witness: a zero-byte relation-index file yields a non-empty verdict. -/
theorem is_nonempty_analysis_short_relations_witness :
    is_nonempty_analysis (fun p => if p = "/z.relations" then some [""] else none) "/z" = true :=
  is_nonempty_analysis_short_relations _ "/z" [""] (by decide) (by decide)

/-- C6: `relativize_analysis_file` rebases exactly the three roots, in order —
JVM root to the empty string, ivy root to `/IVY_HOME_PLACEHOLDER`, build root
to `/PANTS_HOME_PLACEHOLDER` — and `localize_analysis_file` uses exactly the
two fixed placeholder tokens as its from-prefixes; on success each call's
destination content is the source content rewritten by exactly its list. -/
theorem rebasings_fixed_roots_and_placeholders :
    (∀ zu : ZincUtils,
      relativize_rebasings zu =
        [(zu.java_home, ""),
         (zu.ivy_home, "/IVY_HOME_PLACEHOLDER"),
         (zu.pants_home, "/PANTS_HOME_PLACEHOLDER")] ∧
      localize_rebasings zu =
        [("/IVY_HOME_PLACEHOLDER", zu.ivy_home),
         ("/PANTS_HOME_PLACEHOLDER", zu.pants_home)]) ∧
    (∀ (zu : ZincUtils) (t src dst : String) (fs : FS) (c : Content),
      fs src = some c → dst ≠ t ++ "/analysis" → dst ≠ (t ++ "/analysis") ++ ".relations" →
      (relativize_analysis_file zu 0 t src dst fs).2 dst =
        some (rebaseContent (relativize_rebasings zu) c) ∧
      (localize_analysis_file zu 0 t src dst fs).2 dst =
        some (rebaseContent (localize_rebasings zu) c)) :=
  ⟨fun _ => ⟨rfl, rfl⟩,
   fun _ t src dst fs c h h3 h4 =>
     ⟨rebase_analysis_file_success_dst _ t src dst fs c h h3 h4,
      rebase_analysis_file_success_dst _ t src dst fs c h h3 h4⟩⟩

/-- C6, witness instantiating the behavioral part. -/
theorem rebasings_fixed_roots_and_placeholders_witness :
    (relativize_analysis_file zuW 0 "/t" "/a" "/b" fsW).2 "/b" =
      some (rebaseContent (relativize_rebasings zuW) ["/ivy/x"]) ∧
    (localize_analysis_file zuW 0 "/t" "/a" "/b" fsW).2 "/b" =
      some (rebaseContent (localize_rebasings zuW) ["/ivy/x"]) :=
  rebasings_fixed_roots_and_placeholders.2 zuW "/t" "/a" "/b" fsW ["/ivy/x"]
    (by decide) (by decide) (by decide)

/-- C7 (amended): provided the destination paths do not alias the source paths,
`relativize_analysis_file` and `localize_analysis_file` leave the caller's
source file and its `.relations` sibling untouched on every exit status — all
rewriting happens on the private copy in the temporary directory. -/
theorem rebase_preserves_source_files (zu : ZincUtils) (ec : Int)
    (t src dst : String) (fs : FS)
    (hs1 : src ≠ t ++ "/analysis") (hs2 : src ≠ (t ++ "/analysis") ++ ".relations")
    (hs3 : src ≠ dst) (hs4 : src ≠ dst ++ ".relations")
    (hr1 : src ++ ".relations" ≠ t ++ "/analysis")
    (hr2 : src ++ ".relations" ≠ (t ++ "/analysis") ++ ".relations")
    (hr3 : src ++ ".relations" ≠ dst) (hr4 : src ++ ".relations" ≠ dst ++ ".relations") :
    ((relativize_analysis_file zu ec t src dst fs).2 src = fs src ∧
      (relativize_analysis_file zu ec t src dst fs).2 (src ++ ".relations") =
        fs (src ++ ".relations")) ∧
    ((localize_analysis_file zu ec t src dst fs).2 src = fs src ∧
      (localize_analysis_file zu ec t src dst fs).2 (src ++ ".relations") =
        fs (src ++ ".relations")) :=
  ⟨⟨rebase_analysis_file_frame _ _ _ _ _ _ _ hs1 hs2 hs3 hs4,
    rebase_analysis_file_frame _ _ _ _ _ _ _ hr1 hr2 hr3 hr4⟩,
   ⟨rebase_analysis_file_frame _ _ _ _ _ _ _ hs1 hs2 hs3 hs4,
    rebase_analysis_file_frame _ _ _ _ _ _ _ hr1 hr2 hr3 hr4⟩⟩

/-- C7, counterexample to the claim as stated: calling
`relativize_analysis_file` with `dst = src` does overwrite the caller's source
file when the backend succeeds. -/
theorem relativize_overwrites_aliased_source :
    fsW "/a" = some ["/ivy/x"] ∧
    (relativize_analysis_file zuW 0 "/t" "/a" "/a" fsW).2 "/a" ≠ fsW "/a" := by
  refine ⟨rfl, by decide⟩

/-- C7, witness for the amended statement at distinct concrete paths. -/
theorem rebase_preserves_source_files_witness :
    ((relativize_analysis_file zuW 0 "/t" "/a" "/b" fsW).2 "/a" = fsW "/a" ∧
      (relativize_analysis_file zuW 0 "/t" "/a" "/b" fsW).2 ("/a" ++ ".relations") =
        fsW ("/a" ++ ".relations")) ∧
    ((localize_analysis_file zuW 0 "/t" "/a" "/b" fsW).2 "/a" = fsW "/a" ∧
      (localize_analysis_file zuW 0 "/t" "/a" "/b" fsW).2 ("/a" ++ ".relations") =
        fsW ("/a" ++ ".relations")) :=
  rebase_preserves_source_files zuW 0 "/t" "/a" "/b" fsW
    (by decide) (by decide) (by decide) (by decide)
    (by decide) (by decide) (by decide) (by decide)

/-- C8: copying or moving an analysis file whose primary path does not exist is
a no-op — no error is raised and the whole filesystem, including `dst`, is
unchanged. -/
theorem copy_or_move_analysis_missing_src_noop (func : String → String → FS → FS)
    (src dst : String) (fs : FS) (h : fs src = none) :
    copy_or_move_analysis func src dst fs = fs := by
  unfold copy_or_move_analysis
  rw [h]
  rfl

/-- C8, witness: copying a nonexistent analysis leaves the filesystem intact. -/
theorem copy_or_move_analysis_missing_src_noop_witness :
    copy_or_move_analysis copyFile "/nope" "/b" fsW = fsW :=
  copy_or_move_analysis_missing_src_noop copyFile "/nope" "/b" fsW (by decide)

/-- C10 (amended): provided `dst` does not alias `src + '.relations'`, a copy
of an analysis whose source has no `.relations` sibling writes the primary
destination but neither writes nor removes `dst + '.relations'`; consequently
a successful rebase-to-`dst` of such a source leaves a pre-existing relations
file at the destination untouched beside the freshly written primary file. -/
theorem copy_transfers_relations_only_when_present (src dst : String) (fs : FS) (c : Content)
    (h : fs src = some c) (hr : fs (src ++ ".relations") = none)
    (hne : dst ≠ src ++ ".relations") :
    copy_analysis src dst fs (dst ++ ".relations") = fs (dst ++ ".relations") ∧
    copy_analysis src dst fs dst = some c ∧
    (∀ (R : List (String × String)) (t : String),
      fs ((t ++ "/analysis") ++ ".relations") = none →
      src ++ ".relations" ≠ t ++ "/analysis" →
      dst ≠ t ++ "/analysis" → dst ≠ (t ++ "/analysis") ++ ".relations" →
      dst ++ ".relations" ≠ t ++ "/analysis" →
      dst ++ ".relations" ≠ (t ++ "/analysis") ++ ".relations" →
      (rebase_analysis_file R 0 t src dst fs).2 (dst ++ ".relations") =
        fs (dst ++ ".relations") ∧
      (rebase_analysis_file R 0 t src dst fs).2 dst = some (rebaseContent R c)) :=
  ⟨copy_analysis_relations_none src dst fs c h hr (Ne.symm hne),
   copy_analysis_dst src dst fs c h,
   fun R t htr hsr h3 h4 h5 h6 =>
     ⟨rebase_analysis_file_success_relations_none R t src dst fs c h hr htr hsr h3 h4 h5 h6,
      rebase_analysis_file_success_dst R t src dst fs c h h3 h4⟩⟩

/-- C10, counterexample to the claim as stated: with `dst = src + '.relations'`
the primary copy itself creates the source's relations sibling, so
`dst + '.relations'` does get written even though the source had no relations
sibling before the call. -/
theorem copy_writes_relations_for_aliased_dst :
    fsW "/a" = some ["/ivy/x"] ∧
    fsW ("/a" ++ ".relations") = none ∧
    fsW ("/a.relations" ++ ".relations") = none ∧
    copy_analysis "/a" "/a.relations" fsW ("/a.relations" ++ ".relations") ≠
      fsW ("/a.relations" ++ ".relations") := by
  refine ⟨rfl, by decide, by decide, by decide⟩

/-- C10, witness for the amended statement. -/
theorem copy_transfers_relations_only_when_present_witness :
    copy_analysis "/a" "/b" fsW ("/b" ++ ".relations") = fsW ("/b" ++ ".relations") ∧
    copy_analysis "/a" "/b" fsW "/b" = some ["/ivy/x"] ∧
    (∀ (R : List (String × String)) (t : String),
      fsW ((t ++ "/analysis") ++ ".relations") = none →
      "/a" ++ ".relations" ≠ t ++ "/analysis" →
      "/b" ≠ t ++ "/analysis" → "/b" ≠ (t ++ "/analysis") ++ ".relations" →
      "/b" ++ ".relations" ≠ t ++ "/analysis" →
      "/b" ++ ".relations" ≠ (t ++ "/analysis") ++ ".relations" →
      (rebase_analysis_file R 0 t "/a" "/b" fsW).2 ("/b" ++ ".relations") =
        fsW ("/b" ++ ".relations") ∧
      (rebase_analysis_file R 0 t "/a" "/b" fsW).2 "/b" =
        some (rebaseContent R ["/ivy/x"])) :=
  copy_transfers_relations_only_when_present "/a" "/b" fsW ["/ivy/x"]
    (by decide) (by decide) (by decide)

/-! ## Plugin resolution lemmas -/

/-- Whether an archive's descriptor has the required `plugin` root tag
(archives without a descriptor entry are vacuously fine). -/
def validTag (j : PluginJar) : Bool :=
  match j.descriptor with
  | some d => d.tag == "plugin"
  | none => true

/-- Whether an archive declares the plugin name `n`. -/
def declares (j : PluginJar) (n : String) : Bool :=
  match j.descriptor with
  | some d => d.name == n
  | none => false

/-- Whether an archive declares any of the requested names. -/
def declaresRequested (ns : List String) (j : PluginJar) : Bool :=
  match j.descriptor with
  | some d => decide (d.name ∈ ns)
  | none => false

/-- Whether two archives declare the same requested name. -/
def sharesReqName (ns : List String) (a b : PluginJar) : Bool :=
  match a.descriptor, b.descriptor with
  | some d, some e => decide (d.name ∈ ns) && (d.name == e.name)
  | _, _ => false

theorem lookup_append_right_ne (l : List (String × String)) (k v n : String) (h : n ≠ k) :
    (l ++ [(k, v)]).lookup n = l.lookup n := by
  induction l with
  | nil => simp [List.lookup, beq_false_of_ne h]
  | cons x xs ih =>
    rw [List.cons_append]
    simp only [List.lookup]
    cases hx : (n == x.1) <;> simp [ih]

theorem lookup_append_self (l : List (String × String)) (k v : String)
    (h : l.lookup k = none) : (l ++ [(k, v)]).lookup k = some v := by
  induction l with
  | nil => simp [List.lookup]
  | cons x xs ih =>
    rw [List.cons_append]
    simp only [List.lookup] at h ⊢
    cases hx : (k == x.1) with
    | false =>
      simp only [hx] at h ⊢
      exact ih h
    | true =>
      simp only [hx] at h
      exact absurd h (by simp)

theorem find_plugins_scan_skips (relpath : String → String) (requested : List String)
    (seg rest : List PluginJar) (plugins : List (String × String))
    (h : ∀ j ∈ seg, ∀ d, j.descriptor = some d → d.tag = "plugin" ∧ d.name ∉ requested) :
    find_plugins_scan relpath requested (seg ++ rest) plugins =
      find_plugins_scan relpath requested rest plugins := by
  induction seg with
  | nil => rfl
  | cons j seg' ih =>
    rw [List.cons_append]
    have hrest : ∀ j' ∈ seg', ∀ d, j'.descriptor = some d → d.tag = "plugin" ∧ d.name ∉ requested :=
      fun j' hj' => h j' (List.mem_cons_of_mem _ hj')
    cases hd : j.descriptor with
    | none =>
      simp only [find_plugins_scan, hd]
      exact ih hrest
    | some d =>
      obtain ⟨htag, hnot⟩ := h j (List.mem_cons_self _ _) d hd
      simp only [find_plugins_scan, hd]
      rw [if_neg (fun hn => hn htag), if_neg hnot]
      exact ih hrest

/-- C4: if two distinct candidate archives both declare the same requested
plugin name (and the archives scanned around them are benign: well-formed tags
and no requested declarations), `find_plugins` fails with a conflict error
naming the first archive's recorded location and the second archive's path —
it never silently resolves the name to one of them. -/
theorem find_plugins_duplicate_conflict (relpath : String → String)
    (pre mid post : List PluginJar) (j1 j2 : PluginJar)
    (plugin_names : List String) (n : String)
    (h1 : j1.descriptor = some ⟨"plugin", n⟩) (h2 : j2.descriptor = some ⟨"plugin", n⟩)
    (hreq : n ∈ plugin_names)
    (hpre : ∀ j ∈ pre ++ mid, validTag j = true ∧ declaresRequested plugin_names j = false) :
    find_plugins relpath (pre ++ j1 :: (mid ++ j2 :: post)) plugin_names =
      .error (.duplicatePlugin n (relpath j1.path) j2.path) := by
  have hconv : ∀ j ∈ pre ++ mid, ∀ d, j.descriptor = some d →
      d.tag = "plugin" ∧ d.name ∉ plugin_names.dedup := by
    intro j hj d hd
    obtain ⟨ht, hn⟩ := hpre j hj
    unfold validTag at ht
    unfold declaresRequested at hn
    rw [hd] at ht hn
    refine ⟨by simpa using ht, fun hmem => ?_⟩
    rw [decide_eq_false_iff_not] at hn
    exact hn (List.mem_dedup.mp hmem)
  have hpre' : ∀ j ∈ pre, ∀ d, j.descriptor = some d →
      d.tag = "plugin" ∧ d.name ∉ plugin_names.dedup :=
    fun j hj => hconv j (List.mem_append_left _ hj)
  have hmid' : ∀ j ∈ mid, ∀ d, j.descriptor = some d →
      d.tag = "plugin" ∧ d.name ∉ plugin_names.dedup :=
    fun j hj => hconv j (List.mem_append_right _ hj)
  have hreq' : n ∈ plugin_names.dedup := List.mem_dedup.mpr hreq
  unfold find_plugins
  dsimp only
  rw [find_plugins_scan_skips relpath plugin_names.dedup pre _ [] hpre']
  simp only [find_plugins_scan, h1]
  rw [if_neg (fun hn => hn rfl), if_pos hreq']
  simp only [List.lookup, List.nil_append]
  rw [find_plugins_scan_skips relpath plugin_names.dedup mid _ _ hmid']
  simp only [find_plugins_scan, h2]
  rw [if_neg (fun hn => hn rfl), if_pos hreq']
  simp [List.lookup]

/-- C4, witness: two concrete archives declaring `foo`. -/
theorem find_plugins_duplicate_conflict_witness :
    find_plugins (fun s => s)
      ([⟨"/pants/other.jar", none⟩] ++
        (⟨"/pants/p1.jar", some ⟨"plugin", "foo"⟩⟩ : PluginJar) ::
          ([] ++ (⟨"/pants/p2.jar", some ⟨"plugin", "foo"⟩⟩ : PluginJar) :: []))
      ["foo"] =
      .error (.duplicatePlugin "foo" "/pants/p1.jar" "/pants/p2.jar") :=
  find_plugins_duplicate_conflict (fun s => s) [⟨"/pants/other.jar", none⟩] [] []
    ⟨"/pants/p1.jar", some ⟨"plugin", "foo"⟩⟩ ⟨"/pants/p2.jar", some ⟨"plugin", "foo"⟩⟩
    ["foo"] "foo" rfl rfl (by decide) (by decide)

theorem sharesReqName_dedup (ns : List String) (a b : PluginJar) :
    sharesReqName ns.dedup a b = sharesReqName ns a b := by
  obtain ⟨pa, da⟩ := a
  obtain ⟨pb, db⟩ := b
  cases da with
  | none => rfl
  | some d =>
    cases db with
    | none => rfl
    | some e =>
      simp only [sharesReqName]
      rw [decide_eq_decide.mpr List.mem_dedup]

theorem find_plugins_scan_ok (relpath : String → String) (requested : List String) :
    ∀ (jars : List PluginJar) (plugins : List (String × String)),
    (∀ j ∈ jars, validTag j = true) →
    jars.Pairwise (fun a b => sharesReqName requested a b = false) →
    (∀ j ∈ jars, ∀ d, j.descriptor = some d → d.name ∈ requested →
      plugins.lookup d.name = none) →
    ∃ P, find_plugins_scan relpath requested jars plugins = .ok P ∧
      ∀ n ∈ requested, (P.lookup n = none ↔
        plugins.lookup n = none ∧ ∀ j ∈ jars, declares j n = false) := by
  intro jars
  induction jars with
  | nil =>
    intro plugins _ _ _
    exact ⟨plugins, rfl, fun n _ => by simp⟩
  | cons j rest ih =>
    intro plugins htags hpair hfresh
    have htr : ∀ j' ∈ rest, validTag j' = true :=
      fun j' h => htags j' (List.mem_cons_of_mem _ h)
    have hpr : rest.Pairwise (fun a b => sharesReqName requested a b = false) :=
      (List.pairwise_cons.mp hpair).2
    have hph : ∀ b ∈ rest, sharesReqName requested j b = false :=
      (List.pairwise_cons.mp hpair).1
    cases hd : j.descriptor with
    | none =>
      obtain ⟨P, hP, hchar⟩ := ih plugins htr hpr
        (fun j' hj' d hd' hn => hfresh j' (List.mem_cons_of_mem _ hj') d hd' hn)
      refine ⟨P, ?_, ?_⟩
      · simp only [find_plugins_scan, hd]
        exact hP
      · intro n hn
        rw [hchar n hn]
        constructor
        · rintro ⟨ha, hb⟩
          refine ⟨ha, fun j' hj' => ?_⟩
          rcases List.mem_cons.mp hj' with rfl | hj'
          · simp [declares, hd]
          · exact hb j' hj'
        · rintro ⟨ha, hb⟩
          exact ⟨ha, fun j' hj' => hb j' (List.mem_cons_of_mem _ hj')⟩
    | some d =>
      have htagd : d.tag = "plugin" := by
        have htj := htags j (List.mem_cons_self _ _)
        unfold validTag at htj
        rw [hd] at htj
        simpa using htj
      by_cases hn : d.name ∈ requested
      · have hlk : plugins.lookup d.name = none :=
          hfresh j (List.mem_cons_self _ _) d hd hn
        have hscan : find_plugins_scan relpath requested (j :: rest) plugins =
            find_plugins_scan relpath requested rest (plugins ++ [(d.name, relpath j.path)]) := by
          simp only [find_plugins_scan, hd]
          rw [if_neg (fun hh => hh htagd), if_pos hn, hlk]
        have hfresh' : ∀ j' ∈ rest, ∀ d', j'.descriptor = some d' → d'.name ∈ requested →
            (plugins ++ [(d.name, relpath j.path)]).lookup d'.name = none := by
          intro j' hj' d' hd' hn'
          have hne : d'.name ≠ d.name := by
            have hsh := hph j' hj'
            simp only [sharesReqName, hd, hd'] at hsh
            rw [decide_eq_true hn, Bool.true_and] at hsh
            intro he
            rw [he] at hsh
            simp at hsh
          rw [lookup_append_right_ne _ _ _ _ hne]
          exact hfresh j' (List.mem_cons_of_mem _ hj') d' hd' hn'
        obtain ⟨P, hP, hchar⟩ := ih (plugins ++ [(d.name, relpath j.path)]) htr hpr hfresh'
        refine ⟨P, by rw [hscan]; exact hP, ?_⟩
        intro n hnn
        rw [hchar n hnn]
        by_cases hEq : n = d.name
        · have hsome : (plugins ++ [(d.name, relpath j.path)]).lookup n = some (relpath j.path) := by
            rw [hEq]
            exact lookup_append_self _ _ _ hlk
          constructor
          · rintro ⟨ha, _⟩
            rw [hsome] at ha
            exact absurd ha (by simp)
          · rintro ⟨_, hb⟩
            have hbj := hb j (List.mem_cons_self _ _)
            simp only [declares, hd] at hbj
            rw [hEq] at hbj
            simp at hbj
        · have hlk' : (plugins ++ [(d.name, relpath j.path)]).lookup n = plugins.lookup n :=
            lookup_append_right_ne _ _ _ _ hEq
          rw [hlk']
          constructor
          · rintro ⟨ha, hb⟩
            refine ⟨ha, fun j' hj' => ?_⟩
            rcases List.mem_cons.mp hj' with rfl | hj'
            · simp only [declares, hd]
              exact beq_eq_false_iff_ne.mpr (fun he => hEq he.symm)
            · exact hb j' hj'
          · rintro ⟨ha, hb⟩
            exact ⟨ha, fun j' hj' => hb j' (List.mem_cons_of_mem _ hj')⟩
      · have hscan : find_plugins_scan relpath requested (j :: rest) plugins =
            find_plugins_scan relpath requested rest plugins := by
          simp only [find_plugins_scan, hd]
          rw [if_neg (fun hh => hh htagd), if_neg hn]
        obtain ⟨P, hP, hchar⟩ := ih plugins htr hpr
          (fun j' hj' d' hd' hn' => hfresh j' (List.mem_cons_of_mem _ hj') d' hd' hn')
        refine ⟨P, by rw [hscan]; exact hP, ?_⟩
        intro n hnn
        rw [hchar n hnn]
        constructor
        · rintro ⟨ha, hb⟩
          refine ⟨ha, fun j' hj' => ?_⟩
          rcases List.mem_cons.mp hj' with rfl | hj'
          · simp only [declares, hd]
            exact beq_eq_false_iff_ne.mpr (fun he => hn (by rw [he]; exact hnn))
          · exact hb j' hj'
        · rintro ⟨ha, hb⟩
          exact ⟨ha, fun j' hj' => hb j' (List.mem_cons_of_mem _ hj')⟩

/-- C5: when some requested plugin names are declared by no candidate archive
(and the scan itself raises no error: all present descriptors are well-formed
and no requested name is declared twice), `find_plugins` completes the scan of
every archive and then fails once, with a single batched error whose name list
is exactly the set of requested names that no archive declares. -/
theorem find_plugins_batches_missing (relpath : String → String) (jars : List PluginJar)
    (plugin_names : List String)
    (htags : ∀ j ∈ jars, validTag j = true)
    (hpair : jars.Pairwise (fun a b => sharesReqName plugin_names a b = false))
    (hmiss : ∃ n ∈ plugin_names, ∀ j ∈ jars, declares j n = false) :
    ∃ M, find_plugins relpath jars plugin_names = .error (.missingPlugins M) ∧
      ∀ n, n ∈ M ↔ (n ∈ plugin_names ∧ ∀ j ∈ jars, declares j n = false) := by
  have hpair' : jars.Pairwise (fun a b => sharesReqName plugin_names.dedup a b = false) :=
    hpair.imp (fun h => by rw [sharesReqName_dedup]; exact h)
  obtain ⟨P, hP, hchar⟩ := find_plugins_scan_ok relpath plugin_names.dedup jars []
    htags hpair' (fun j hj d hd hn => rfl)
  have hmem : ∀ n, n ∈ (plugin_names.dedup).filter (fun n => (P.lookup n).isNone) ↔
      (n ∈ plugin_names ∧ ∀ j ∈ jars, declares j n = false) := by
    intro n
    rw [List.mem_filter]
    constructor
    · rintro ⟨h1, h2⟩
      have h2' := Option.isNone_iff_eq_none.mp h2
      exact ⟨List.mem_dedup.mp h1, ((hchar n h1).mp h2').2⟩
    · rintro ⟨h1, h2⟩
      have h1d := List.mem_dedup.mpr h1
      exact ⟨h1d, Option.isNone_iff_eq_none.mpr ((hchar n h1d).mpr ⟨rfl, h2⟩)⟩
  refine ⟨(plugin_names.dedup).filter (fun n => (P.lookup n).isNone), ?_, hmem⟩
  unfold find_plugins
  dsimp only
  rw [hP]
  dsimp only
  obtain ⟨n0, hn0, hmiss0⟩ := hmiss
  have hne : n0 ∈ (plugin_names.dedup).filter (fun n => (P.lookup n).isNone) :=
    (hmem n0).mpr ⟨hn0, hmiss0⟩
  rw [if_pos (List.length_pos.mpr (List.ne_nil_of_mem hne))]

/-- C5, witness: with only `foo` resolvable, `bar` and `baz` are reported
together in one batched error after the whole scan. -/
theorem find_plugins_batches_missing_witness :
    ∃ M, find_plugins (fun s => s)
      [⟨"/pants/p1.jar", some ⟨"plugin", "foo"⟩⟩, ⟨"/pants/other.jar", none⟩]
      ["foo", "bar", "baz"] = .error (.missingPlugins M) ∧
      ∀ n, n ∈ M ↔ (n ∈ ["foo", "bar", "baz"] ∧
        ∀ j ∈ [(⟨"/pants/p1.jar", some ⟨"plugin", "foo"⟩⟩ : PluginJar),
               ⟨"/pants/other.jar", none⟩], declares j n = false) :=
  find_plugins_batches_missing (fun s => s)
    [⟨"/pants/p1.jar", some ⟨"plugin", "foo"⟩⟩, ⟨"/pants/other.jar", none⟩]
    ["foo", "bar", "baz"] (by decide) (by decide) (by decide)
